import Mathlib

set_option maxRecDepth 8192

/-!
Shallow embedding of the spectral-analysis and detection-engine modules of
the image-model repository, together with theorems settling the frozen
claims about them.

Conventions of the embedding:
* a decoded grayscale image (the result of a successful `cv2.imread` call in
  grayscale mode) is a positive-dimension grid of real-valued luminance
  samples;
* floating-point arithmetic is modelled by exact real arithmetic;
* `cv2.imread` returning `None` for a path that does not resolve to a
  decodable image is modelled by a `FileSystem` map into `Option GrayImage`;
* a Python function that may raise is modelled as returning `Except`.
-/

namespace ImageModel

/-- A decoded single-channel (grayscale) image: a grid of luminance
samples with positive dimensions, as produced by a successful decode. -/
structure GrayImage where
  H : Nat
  W : Nat
  Hpos : 0 < H
  Wpos : 0 < W
  px : Fin H → Fin W → ℝ

/-- A file system, assigning to each path the decoded grayscale image, or
`none` when the path does not resolve to a decodable image. -/
def FileSystem : Type := String → Option GrayImage

/-- Model of `cv2.imread(path, cv2.IMREAD_GRAYSCALE)`: look the path up in
the file system. -/
def imread (fs : FileSystem) (path : String) : Option GrayImage := fs path

/-- Model of `np.fft.fft2`: the (unnormalized, forward) 2D discrete Fourier
transform of the image grid. -/
noncomputable def fft2 (img : GrayImage) (u : Fin img.H) (v : Fin img.W) : ℂ :=
  ∑ y : Fin img.H, ∑ x : Fin img.W,
    (img.px y x : ℂ) *
      Complex.exp (-(2 * (Real.pi : ℂ) * Complex.I) *
        (((u : ℕ) : ℂ) * ((y : ℕ) : ℂ) / (img.H : ℂ) +
          ((v : ℕ) : ℂ) * ((x : ℕ) : ℂ) / (img.W : ℂ)))

/-- Index arithmetic of `np.fft.fftshift` along one axis of length `n`:
output position `i` reads input position `(i - n 2) mod n`, written here
without subtraction as `(i + (n - n 2)) mod n`. -/
def shiftIdx (n : ℕ) (hn : 0 < n) (i : Fin n) : Fin n :=
  ⟨((i : ℕ) + (n - n / 2)) % n, Nat.mod_lt _ hn⟩

/-- The magnitude spectrum `np.abs(np.fft.fftshift(np.fft.fft2(img)))`:
element-wise modulus of the center-shifted transform. -/
noncomputable def magnitude_spectrum (img : GrayImage) (u : Fin img.H) (v : Fin img.W) : ℝ :=
  Complex.abs (fft2 img (shiftIdx img.H img.Hpos u) (shiftIdx img.W img.Wpos v))

/-- Python `center_y = magnitude_spectrum.shape[0] // 2`. -/
def center_y (H : ℕ) : ℕ := H / 2

/-- Python `center_x = magnitude_spectrum.shape[1] // 2`. -/
def center_x (W : ℕ) : ℕ := W / 2

/-- Python `radius = min(center_y, center_x) // 4` (integer division). -/
def radius (H W : ℕ) : ℕ := min (center_y H) (center_x W) / 4

/-- The annulus mask `((y - center_y)**2 + (x - center_x)**2) > radius**2`:
the set of grid cells whose squared Euclidean distance from the center
strictly exceeds the squared exclusion radius. -/
def outerRegion (H W : ℕ) : Finset (Fin H × Fin W) :=
  Finset.univ.filter fun p =>
    ((radius H W : ℤ)) ^ 2 <
      ((p.1 : ℤ) - (center_y H : ℤ)) ^ 2 + ((p.2 : ℤ) - (center_x W : ℤ)) ^ 2

/-- Model of `np.mean(magnitude_spectrum[mask])`: arithmetic mean of the
outer-region magnitudes. -/
noncomputable def spectrum_mean (img : GrayImage) : ℝ :=
  (∑ p ∈ outerRegion img.H img.W, magnitude_spectrum img p.1 p.2) /
    ((outerRegion img.H img.W).card : ℝ)

/-- Model of `np.std(magnitude_spectrum[mask])`: population standard deviation
(square root of the mean squared deviation) of the outer-region
magnitudes. -/
noncomputable def spectrum_std (img : GrayImage) : ℝ :=
  Real.sqrt ((∑ p ∈ outerRegion img.H img.W,
      (magnitude_spectrum img p.1 p.2 - spectrum_mean img) ^ 2) /
    ((outerRegion img.H img.W).card : ℝ))

/-- Python `anomaly_threshold = spectrum_mean + 3 * spectrum_std`. -/
noncomputable def anomaly_threshold (img : GrayImage) : ℝ :=
  spectrum_mean img + 3 * spectrum_std img

open Classical in
/-- Model of `anomalies = np.sum(magnitude_spectrum[mask] > anomaly_threshold)`:
the number of outer-region cells whose magnitude strictly exceeds the
anomaly threshold. -/
noncomputable def anomalies (img : GrayImage) : ℕ :=
  ((outerRegion img.H img.W).filter fun p =>
      anomaly_threshold img < magnitude_spectrum img p.1 p.2).card

/-- First line of the anomalous verdict. -/
def anomaly_line1 : String := "⚠ High number of spectral anomalies detected."

/-- Second line of the anomalous verdict. -/
def anomaly_line2 : String := "This is a common characteristic of GAN/Diffusion generation."

/-- First line of the natural verdict. -/
def natural_line1 : String := "✓ Spectral pattern appears natural."

/-- Second line of the natural verdict. -/
def natural_line2 : String := "No significant high-frequency artifacts found."

/-- The full anomalous verdict, the two lines joined with a line break. -/
def anomalous_message : String := String.intercalate "\n" [anomaly_line1, anomaly_line2]

/-- The full natural verdict, the two lines joined with a line break. -/
def natural_message : String := String.intercalate "\n" [natural_line1, natural_line2]

/-- The sentinel string returned by `analyze_spectrum_patterns` when the
image fails to load. -/
def could_not_analyze : String := "Could not analyze image"

/-- The message of the `ValueError` NumPy raises when `np.max` is taken
over an empty selection. -/
def zero_size_reduction_msg : String :=
  "zero-size array to reduction operation maximum which has no identity"

/-- The message of the `ValueError` raised by the fingerprint entry points
when a path fails to decode. -/
def image_load_error (path : String) : String :=
  "Could not load image from " ++ path

/-- The body of `analyze_spectrum_patterns` after a successful image load:
compute the magnitude spectrum's outer-region statistics and emit the
two-line verdict.  NumPy's `np.max` over an empty selection raises, which
is modelled by the error branch; the computed maximum is otherwise unused
by the source, mirrored by the dead binding. -/
noncomputable def analyze_core (img : GrayImage) : Except String String :=
  if h : (outerRegion img.H img.W).Nonempty then
    let _spectrum_max : ℝ :=
      (outerRegion img.H img.W).sup' h fun p => magnitude_spectrum img p.1 p.2
    Except.ok (String.intercalate "\n"
      (if 100 < anomalies img then [anomaly_line1, anomaly_line2]
        else [natural_line1, natural_line2]))
  else Except.error zero_size_reduction_msg

/-- Model of `analyze_spectrum_patterns(image_path)`: returns the sentinel string
when the image fails to load, otherwise analyzes the spectrum. -/
noncomputable def analyze_spectrum_patterns (fs : FileSystem) (path : String) :
    Except String String :=
  match imread fs path with
  | none => Except.ok could_not_analyze
  | some img => analyze_core img

/-- The matplotlib figure assembled by the fingerprint entry points,
modelled by its mathematical content: the log-compressed magnitude grid
`np.log1p(magnitude_spectrum)`. -/
structure SpectralFigure where
  height : ℕ
  width : ℕ
  log_magnitude : Fin height → Fin width → ℝ

/-- Build the figure for an image: same dimensions, `log(1 + magnitude)`
data. -/
noncomputable def mkFigure (img : GrayImage) : SpectralFigure :=
  ⟨img.H, img.W, fun u v => Real.log (1 + magnitude_spectrum img u v)⟩

/-- Model of `compute_spectral_fingerprint_web(image_path)`: raises `ValueError`
when the path fails to decode, otherwise returns the figure. -/
noncomputable def compute_spectral_fingerprint_web (fs : FileSystem) (path : String) :
    Except String SpectralFigure :=
  match imread fs path with
  | none => Except.error (image_load_error path)
  | some img => Except.ok (mkFigure img)

/-- Model of `compute_spectral_fingerprint(image_path)`: the legacy GUI entry point,
a direct delegation to the web entry point. -/
noncomputable def compute_spectral_fingerprint (fs : FileSystem) (path : String) :
    Except String SpectralFigure :=
  compute_spectral_fingerprint_web fs path

/-- One call of `analyze_spectrum_patterns` on an already-decoded image,
with the image state (a mutable NumPy array in the source) passed
explicitly: the source performs no write to the array, so the call returns
it unchanged alongside the output. -/
noncomputable def analyze_call (img : GrayImage) : Except String String × GrayImage :=
  (analyze_core img, img)

/-- Number of line-break characters in a string. -/
def countNewlines (s : String) : ℕ := s.data.count '\n'

/-- One prediction returned by the classification pipeline: a label and a
score (scores never participate in comparisons, so exact rationals model
them faithfully). -/
structure Prediction where
  label : String
  score : ℚ

/-- The dictionary returned by `AIImageDetector.detect`. -/
structure DetectResult where
  label : String
  confidence : ℚ
  all_scores : List Prediction
  model_used : String

/-- Python `str.lower()` on the character list of a label. -/
def lowerChars (s : String) : List Char := s.toList.map Char.toLower

/-- Python substring containment `kw in text` on character lists. -/
def containsSub (kw : List Char) : List Char → Bool
  | [] => kw.isEmpty
  | c :: cs => kw.isPrefixOf (c :: cs) || containsSub kw cs

/-- The AI-indicating keyword set of `AIImageDetector.detect`. -/
def ai_keywords : List String :=
  ["artificial", "fake", "ai", "generated", "synthetic", "diffusion", "gan", "stable"]

/-- The real-indicating keyword set of `AIImageDetector.detect`. -/
def real_keywords : List String :=
  ["real", "natural", "photo", "authentic", "human"]

/-- Python `any(keyword in text for keyword in kws)`. -/
def matchesAny (text : List Char) (kws : List String) : Bool :=
  kws.any fun kw => containsSub kw.toList text

/-- The label-resolution logic of `AIImageDetector.detect`, given the
classifier's (nonempty) prediction list: keyword matching on the lowered
top label, the fallback scan of all predictions for an AI keyword when the
top label matches neither set, and the final negation-marker default. -/
def detect (model_name : String) (results : List Prediction) (h : results ≠ []) :
    DetectResult :=
  let top0 := results.head h
  let label_text := lowerChars top0.label
  let is_ai0 : Bool := matchesAny label_text ai_keywords
  let is_real : Bool := matchesAny label_text real_keywords
  let fb : Option Prediction :=
    if is_ai0 = false ∧ is_real = false ∧ 1 < results.length then
      results.find? fun r => matchesAny (lowerChars r.label) ai_keywords
    else none
  let top := fb.getD top0
  let is_ai : Bool := is_ai0 || fb.isSome
  let label : String :=
    if is_ai then "artificial"
    else if is_real then "real"
    else if containsSub "not".toList label_text then "artificial" else "real"
  { label := label, confidence := top.score * 100, all_scores := results,
    model_used := model_name }

/-- A 1-by-2 all-black image: the smallest image whose outer region is
nonempty. -/
noncomputable def img_flat : GrayImage := ⟨1, 2, Nat.one_pos, by omega, fun _ _ => 0⟩

/-- A 1-by-1 image: the unique shape whose outer region is empty. -/
noncomputable def img_one : GrayImage := ⟨1, 1, Nat.one_pos, Nat.one_pos, fun _ _ => 0⟩

/-- A file system in which every path decodes to `img_flat`. -/
noncomputable def fs_flat : FileSystem := fun _ => some img_flat

/-- A file system in which every path decodes to the 1-by-1 image. -/
noncomputable def fs_one : FileSystem := fun _ => some img_one

/-- A file system in which no path decodes. -/
def fs_empty : FileSystem := fun _ => none

/-- Output position of the one-axis fftshift is the zero frequency exactly
when it is the center position. -/
lemma shift_val_zero_iff (n u : ℕ) (hn : 0 < n) (hu : u < n) :
    (u + (n - n / 2)) % n = 0 ↔ u = n / 2 := by
  have hd2 : n / 2 < n := Nat.div_lt_self hn one_lt_two
  constructor
  · intro h
    obtain ⟨k, hk⟩ := Nat.dvd_of_mod_eq_zero h
    have hklt : k < 2 := by
      have hlt : n * k < n * 2 := by omega
      exact Nat.lt_of_mul_lt_mul_left hlt
    have hk0 : k ≠ 0 := by
      intro h0
      subst h0
      rw [Nat.mul_zero] at hk
      omega
    have hk1 : k = 1 := by omega
    subst hk1
    rw [Nat.mul_one] at hk
    omega
  · intro h
    subst h
    have : n / 2 + (n - n / 2) = n := by omega
    rw [this, Nat.mod_self]

/-- Restatement of the previous lemma for `shiftIdx`. -/
lemma shiftIdx_val_zero_iff (n : ℕ) (hn : 0 < n) (i : Fin n) :
    ((shiftIdx n hn i : Fin n) : ℕ) = 0 ↔ (i : ℕ) = n / 2 := by
  simpa [shiftIdx] using shift_val_zero_iff n (i : ℕ) hn i.isLt

/-- Geometric sum of the `N`-th roots of unity appearing in one axis of the
transform: `N` at frequency zero, `0` at every other frequency. -/
lemma sum_exp_unit (N : ℕ) (hN : 0 < N) (u : Fin N) :
    ∑ y : Fin N, Complex.exp (-(2 * (Real.pi : ℂ) * Complex.I) *
        (((u : ℕ) : ℂ) * ((y : ℕ) : ℂ) / (N : ℂ))) =
      if (u : ℕ) = 0 then (N : ℂ) else 0 := by
  have hN0 : (N : ℂ) ≠ 0 := Nat.cast_ne_zero.mpr hN.ne'
  by_cases h0 : (u : ℕ) = 0
  · simp [h0, Finset.card_univ]
  · rw [if_neg h0]
    set z : ℂ := -(2 * (Real.pi : ℂ) * Complex.I) * (((u : ℕ) : ℂ) / (N : ℂ)) with hz
    have hterm : ∀ y : Fin N,
        Complex.exp (-(2 * (Real.pi : ℂ) * Complex.I) *
            (((u : ℕ) : ℂ) * ((y : ℕ) : ℂ) / (N : ℂ))) = Complex.exp z ^ (y : ℕ) := by
      intro y
      rw [← Complex.exp_nat_mul]
      congr 1
      rw [hz]
      ring
    rw [Finset.sum_congr rfl fun y _ => hterm y]
    have h2pi : (2 * (Real.pi : ℂ) * Complex.I) ≠ 0 :=
      mul_ne_zero (mul_ne_zero two_ne_zero
        (Complex.ofReal_ne_zero.mpr Real.pi_ne_zero)) Complex.I_ne_zero
    have homega : Complex.exp z ≠ 1 := by
      intro h1
      rw [Complex.exp_eq_one_iff] at h1
      obtain ⟨m, hm⟩ := h1
      have hmm : (2 * (Real.pi : ℂ) * Complex.I) * (-(((u : ℕ) : ℂ) / (N : ℂ))) =
          (2 * (Real.pi : ℂ) * Complex.I) * (m : ℂ) := by
        rw [hz] at hm
        linear_combination hm
      have hdiv : -(((u : ℕ) : ℂ) / (N : ℂ)) = (m : ℂ) := mul_left_cancel₀ h2pi hmm
      have hcast : -((u : ℕ) : ℂ) = (m : ℂ) * (N : ℂ) := by
        field_simp at hdiv
        linear_combination hdiv
      have hint : -((u : ℕ) : ℤ) = m * (N : ℤ) := by
        exact_mod_cast hcast
      have hdvd : (N : ℤ) ∣ ((u : ℕ) : ℤ) := ⟨-m, by linarith⟩
      have hupos : (0 : ℤ) < ((u : ℕ) : ℤ) := by
        exact_mod_cast Nat.pos_of_ne_zero h0
      have hle : (N : ℤ) ≤ ((u : ℕ) : ℤ) := Int.le_of_dvd hupos hdvd
      have hult : ((u : ℕ) : ℤ) < (N : ℤ) := by exact_mod_cast u.isLt
      omega
    have homegaN : Complex.exp z ^ N = 1 := by
      rw [← Complex.exp_nat_mul]
      have : (N : ℂ) * z = ((-(u : ℕ) : ℤ) : ℂ) * (2 * (Real.pi : ℂ) * Complex.I) := by
        rw [hz]
        push_cast
        field_simp
        ring
      rw [this, Complex.exp_int_mul_two_pi_mul_I]
    rw [Fin.sum_univ_eq_sum_range (fun i => Complex.exp z ^ i) N]
    rw [geom_sum_eq homega N, homegaN]
    simp

/-- The transform of a constant image: `H * W * c` at frequency `(0, 0)`
and `0` everywhere else. -/
lemma fft2_const (H W : ℕ) (hH : 0 < H) (hW : 0 < W) (c : ℝ) (u : Fin H) (v : Fin W) :
    fft2 (GrayImage.mk H W hH hW fun _ _ => c) u v =
      if (u : ℕ) = 0 ∧ (v : ℕ) = 0 then ((H * W : ℕ) : ℂ) * (c : ℂ) else 0 := by
  have key : fft2 (GrayImage.mk H W hH hW fun _ _ => c) u v =
      (c : ℂ) *
        (∑ y : Fin H, Complex.exp (-(2 * (Real.pi : ℂ) * Complex.I) *
            (((u : ℕ) : ℂ) * ((y : ℕ) : ℂ) / (H : ℂ)))) *
        (∑ x : Fin W, Complex.exp (-(2 * (Real.pi : ℂ) * Complex.I) *
            (((v : ℕ) : ℂ) * ((x : ℕ) : ℂ) / (W : ℂ)))) := by
    calc fft2 (GrayImage.mk H W hH hW fun _ _ => c) u v
        = ∑ y : Fin H, ∑ x : Fin W, (c : ℂ) *
            (Complex.exp (-(2 * (Real.pi : ℂ) * Complex.I) *
                (((u : ℕ) : ℂ) * ((y : ℕ) : ℂ) / (H : ℂ))) *
              Complex.exp (-(2 * (Real.pi : ℂ) * Complex.I) *
                (((v : ℕ) : ℂ) * ((x : ℕ) : ℂ) / (W : ℂ)))) := by
          dsimp only [fft2]
          refine Finset.sum_congr rfl fun y _ => Finset.sum_congr rfl fun x _ => ?_
          rw [show -(2 * (Real.pi : ℂ) * Complex.I) *
                (((u : ℕ) : ℂ) * ((y : ℕ) : ℂ) / (H : ℂ) +
                  ((v : ℕ) : ℂ) * ((x : ℕ) : ℂ) / (W : ℂ)) =
              -(2 * (Real.pi : ℂ) * Complex.I) *
                  (((u : ℕ) : ℂ) * ((y : ℕ) : ℂ) / (H : ℂ)) +
                -(2 * (Real.pi : ℂ) * Complex.I) *
                  (((v : ℕ) : ℂ) * ((x : ℕ) : ℂ) / (W : ℂ)) from by ring,
            Complex.exp_add]
      _ = ∑ y : Fin H, (c : ℂ) *
            Complex.exp (-(2 * (Real.pi : ℂ) * Complex.I) *
              (((u : ℕ) : ℂ) * ((y : ℕ) : ℂ) / (H : ℂ))) *
            (∑ x : Fin W, Complex.exp (-(2 * (Real.pi : ℂ) * Complex.I) *
                (((v : ℕ) : ℂ) * ((x : ℕ) : ℂ) / (W : ℂ)))) := by
          refine Finset.sum_congr rfl fun y _ => ?_
          rw [Finset.mul_sum]
          exact Finset.sum_congr rfl fun x _ => by ring
      _ = (c : ℂ) *
            (∑ y : Fin H, Complex.exp (-(2 * (Real.pi : ℂ) * Complex.I) *
                (((u : ℕ) : ℂ) * ((y : ℕ) : ℂ) / (H : ℂ)))) *
            (∑ x : Fin W, Complex.exp (-(2 * (Real.pi : ℂ) * Complex.I) *
                (((v : ℕ) : ℂ) * ((x : ℕ) : ℂ) / (W : ℂ)))) := by
          rw [← Finset.sum_mul, ← Finset.mul_sum]
  rw [key, sum_exp_unit H hH u, sum_exp_unit W hW v]
  by_cases hu : (u : ℕ) = 0 <;> by_cases hv : (v : ℕ) = 0
  · rw [if_pos hu, if_pos hv, if_pos (show (u : ℕ) = 0 ∧ (v : ℕ) = 0 from ⟨hu, hv⟩)]
    push_cast
    ring
  · rw [if_neg (show ¬((u : ℕ) = 0 ∧ (v : ℕ) = 0) from fun h => hv h.2), if_neg hv,
      mul_zero]
  · rw [if_neg (show ¬((u : ℕ) = 0 ∧ (v : ℕ) = 0) from fun h => hu h.1), if_neg hu]
    ring
  · rw [if_neg (show ¬((u : ℕ) = 0 ∧ (v : ℕ) = 0) from fun h => hu h.1), if_neg hu]
    ring

/-- The magnitude spectrum of a constant image: a single peak of height
`H * W * abs c` at the center position, `0` everywhere else. -/
lemma magnitude_spectrum_const (H W : ℕ) (hH : 0 < H) (hW : 0 < W) (c : ℝ)
    (u : Fin H) (v : Fin W) :
    magnitude_spectrum (GrayImage.mk H W hH hW fun _ _ => c) u v =
      if (u : ℕ) = H / 2 ∧ (v : ℕ) = W / 2 then ((H : ℝ) * W) * |c| else 0 := by
  dsimp only [magnitude_spectrum]
  rw [fft2_const H W hH hW c]
  simp only [shiftIdx_val_zero_iff]
  by_cases h : (u : ℕ) = H / 2 ∧ (v : ℕ) = W / 2
  · rw [if_pos h, if_pos h, map_mul, Complex.abs_natCast, Complex.abs_ofReal]
    push_cast
    ring
  · rw [if_neg h, if_neg h, map_zero]

/-- Membership in the outer region, spelled with the raw formulas of the
source: squared distance from `(H // 2, W // 2)` strictly above
`(min(H // 2, W // 2) // 4) ** 2`. -/
lemma mem_outerRegion_iff (H W : ℕ) (p : Fin H × Fin W) :
    p ∈ outerRegion H W ↔
      ((min (H / 2) (W / 2) / 4 : ℕ) : ℤ) ^ 2 <
        ((p.1 : ℤ) - ((H / 2 : ℕ) : ℤ)) ^ 2 + ((p.2 : ℤ) - ((W / 2 : ℕ) : ℤ)) ^ 2 := by
  simp [outerRegion, radius, center_y, center_x]

/-- The center cell itself is never in the outer region. -/
lemma center_not_mem_outerRegion (H W : ℕ) (p : Fin H × Fin W)
    (h1 : (p.1 : ℕ) = H / 2) (h2 : (p.2 : ℕ) = W / 2) : p ∉ outerRegion H W := by
  rw [mem_outerRegion_iff]
  push_neg
  have e1 : ((p.1 : ℤ) - ((H / 2 : ℕ) : ℤ)) = 0 := by
    rw [show (p.1 : ℤ) = ((p.1 : ℕ) : ℤ) from rfl, h1]
    ring
  have e2 : ((p.2 : ℤ) - ((W / 2 : ℕ) : ℤ)) = 0 := by
    rw [show (p.2 : ℤ) = ((p.2 : ℕ) : ℤ) from rfl, h2]
    ring
  rw [e1, e2]
  positivity

/-- The outer region is empty exactly for a 1-by-1 image. -/
lemma outerRegion_empty_iff (H W : ℕ) (hH : 0 < H) (hW : 0 < W) :
    outerRegion H W = ∅ ↔ H = 1 ∧ W = 1 := by
  constructor
  · intro hemp
    by_contra hne
    have hsome : 1 ≤ H / 2 ∨ 1 ≤ W / 2 := by
      by_cases h1 : H = 1
      · have h2 : W ≠ 1 := fun h => hne ⟨h1, h⟩
        right
        omega
      · left
        omega
    have hnat : (min (H / 2) (W / 2) / 4) ^ 2 < (H / 2) ^ 2 + (W / 2) ^ 2 := by
      rcases Nat.eq_zero_or_pos (min (H / 2) (W / 2)) with hm | hm
      · have hpos : 0 < (H / 2) ^ 2 + (W / 2) ^ 2 := by
          rcases hsome with h | h
          · have : 0 < (H / 2) ^ 2 := pow_pos (by omega) 2
            omega
          · have : 0 < (W / 2) ^ 2 := pow_pos (by omega) 2
            omega
        rw [hm]
        simpa using hpos
      · have hlt : min (H / 2) (W / 2) / 4 < min (H / 2) (W / 2) :=
          Nat.div_lt_self hm (by omega)
        have hsq : (min (H / 2) (W / 2) / 4) ^ 2 < (min (H / 2) (W / 2)) ^ 2 :=
          Nat.pow_lt_pow_left hlt two_ne_zero
        have hle1 : (min (H / 2) (W / 2)) ^ 2 ≤ (H / 2) ^ 2 :=
          Nat.pow_le_pow_left (min_le_left _ _) 2
        omega
    have hcell : (⟨⟨0, hH⟩, ⟨0, hW⟩⟩ : Fin H × Fin W) ∈ outerRegion H W := by
      rw [mem_outerRegion_iff]
      have hcast : ((min (H / 2) (W / 2) / 4 : ℕ) : ℤ) ^ 2 <
          ((H / 2 : ℕ) : ℤ) ^ 2 + ((W / 2 : ℕ) : ℤ) ^ 2 := by
        exact_mod_cast hnat
      have hval1 : (((⟨⟨0, hH⟩, ⟨0, hW⟩⟩ : Fin H × Fin W).1 : ℕ) : ℤ) = 0 := rfl
      rw [hval1, zero_sub, zero_sub, neg_sq, neg_sq]
      exact hcast
    rw [hemp] at hcell
    exact absurd hcell (Finset.not_mem_empty _)
  · rintro ⟨h1, h2⟩
    subst h1
    subst h2
    decide

/-- On a nonempty outer region the analysis reaches the verdict branch. -/
lemma analyze_core_of_nonempty (img : GrayImage)
    (hne : (outerRegion img.H img.W).Nonempty) :
    analyze_core img = Except.ok (String.intercalate "\n"
      (if 100 < anomalies img then [anomaly_line1, anomaly_line2]
        else [natural_line1, natural_line2])) := by
  unfold analyze_core
  rw [dif_pos hne]

/-- On a 1-by-1 image the analysis hits the empty-selection reduction
error. -/
lemma analyze_core_one (img : GrayImage) (hH : img.H = 1) (hW : img.W = 1) :
    analyze_core img = Except.error zero_size_reduction_msg := by
  have hemp : ¬(outerRegion img.H img.W).Nonempty := by
    rw [Finset.not_nonempty_iff_eq_empty]
    exact (outerRegion_empty_iff img.H img.W img.Hpos img.Wpos).mpr ⟨hH, hW⟩
  unfold analyze_core
  rw [dif_neg hemp]

/-- Outer-region mean of a constant image's spectrum is zero. -/
lemma spectrum_mean_uniform (H W : ℕ) (hH : 0 < H) (hW : 0 < W) (c : ℝ) :
    spectrum_mean (GrayImage.mk H W hH hW fun _ _ => c) = 0 := by
  have hz : ∑ p ∈ outerRegion H W,
      magnitude_spectrum (GrayImage.mk H W hH hW fun _ _ => c) p.1 p.2 = 0 :=
    Finset.sum_eq_zero fun p hp => by
      rw [magnitude_spectrum_const H W hH hW c p.1 p.2, if_neg]
      intro hc
      exact center_not_mem_outerRegion H W p hc.1 hc.2 hp
  show (∑ p ∈ outerRegion H W,
      magnitude_spectrum (GrayImage.mk H W hH hW fun _ _ => c) p.1 p.2) /
    ((outerRegion H W).card : ℝ) = 0
  rw [hz, zero_div]

/-- Outer-region standard deviation of a constant image's spectrum is
zero. -/
lemma spectrum_std_uniform (H W : ℕ) (hH : 0 < H) (hW : 0 < W) (c : ℝ) :
    spectrum_std (GrayImage.mk H W hH hW fun _ _ => c) = 0 := by
  have hz : ∑ p ∈ outerRegion H W,
      (magnitude_spectrum (GrayImage.mk H W hH hW fun _ _ => c) p.1 p.2 -
        spectrum_mean (GrayImage.mk H W hH hW fun _ _ => c)) ^ 2 = 0 :=
    Finset.sum_eq_zero fun p hp => by
      rw [spectrum_mean_uniform H W hH hW c,
        magnitude_spectrum_const H W hH hW c p.1 p.2, if_neg]
      · norm_num
      · intro hc
        exact center_not_mem_outerRegion H W p hc.1 hc.2 hp
  show Real.sqrt ((∑ p ∈ outerRegion H W,
      (magnitude_spectrum (GrayImage.mk H W hH hW fun _ _ => c) p.1 p.2 -
        spectrum_mean (GrayImage.mk H W hH hW fun _ _ => c)) ^ 2) /
    ((outerRegion H W).card : ℝ)) = 0
  rw [hz, zero_div, Real.sqrt_zero]

/-- A constant image has no outer-region anomalies. -/
lemma anomalies_uniform (H W : ℕ) (hH : 0 < H) (hW : 0 < W) (c : ℝ) :
    anomalies (GrayImage.mk H W hH hW fun _ _ => c) = 0 := by
  have hthr : anomaly_threshold (GrayImage.mk H W hH hW fun _ _ => c) = 0 := by
    unfold anomaly_threshold
    rw [spectrum_mean_uniform H W hH hW c, spectrum_std_uniform H W hH hW c]
    ring
  unfold anomalies
  rw [Finset.card_eq_zero]
  refine Finset.filter_eq_empty_iff.mpr fun p hp => ?_
  rw [hthr, magnitude_spectrum_const H W hH hW c p.1 p.2, if_neg]
  · exact lt_irrefl 0
  · intro hc
    exact center_not_mem_outerRegion H W p hc.1 hc.2 hp

/-- Claim C1 (amended): for every decodable grayscale image whose outer
region is nonempty, `analyze_spectrum_patterns` returns the two-line
anomalous message exactly when the outer-region anomaly count exceeds 100,
returns the two-line natural message exactly otherwise, and both messages
are two lines joined by a single line break. -/
theorem analyze_verdict_dichotomy (fs : FileSystem) (path : String) (img : GrayImage)
    (hload : fs path = some img) (hne : (outerRegion img.H img.W).Nonempty) :
    (analyze_spectrum_patterns fs path = Except.ok anomalous_message ↔
      100 < anomalies img) ∧
    (analyze_spectrum_patterns fs path = Except.ok natural_message ↔
      anomalies img ≤ 100) ∧
    countNewlines anomalous_message = 1 ∧ countNewlines natural_message = 1 := by
  have hrun : analyze_spectrum_patterns fs path = analyze_core img := by
    simp only [analyze_spectrum_patterns, imread, hload]
  have hmsgne : anomalous_message ≠ natural_message := by decide
  rw [hrun, analyze_core_of_nonempty img hne]
  by_cases hgt : 100 < anomalies img
  · rw [if_pos hgt]
    exact ⟨iff_of_true rfl hgt,
      iff_of_false (fun he => hmsgne (Except.ok.inj he)) (by omega),
      by decide, by decide⟩
  · rw [if_neg hgt]
    exact ⟨iff_of_false (fun he => hmsgne (Except.ok.inj he).symm) hgt,
      iff_of_true rfl (by omega),
      by decide, by decide⟩

/-- Witness for C1 at the concrete 1-by-2 zero image. -/
theorem analyze_verdict_dichotomy_witness :
    (outerRegion img_flat.H img_flat.W).Nonempty ∧
    (analyze_spectrum_patterns fs_flat "photo.png" = Except.ok natural_message ↔
      anomalies img_flat ≤ 100) :=
  ⟨by decide, (analyze_verdict_dichotomy fs_flat "photo.png" img_flat rfl (by decide)).2.1⟩

/-- Counterexample to C1 as stated: the decodable 1-by-1 image has anomaly
count at most 100, yet the analysis returns neither the natural nor the
anomalous message (it raises instead). -/
theorem analyze_verdict_dichotomy_counterexample :
    anomalies img_one ≤ 100 ∧
    analyze_spectrum_patterns fs_one "tiny.png" ≠ Except.ok natural_message ∧
    analyze_spectrum_patterns fs_one "tiny.png" ≠ Except.ok anomalous_message := by
  have hrun : analyze_spectrum_patterns fs_one "tiny.png" =
      Except.error zero_size_reduction_msg := by
    simp only [analyze_spectrum_patterns, imread, fs_one]
    exact analyze_core_one img_one rfl rfl
  have hanom : anomalies img_one = 0 := by
    have hemp : outerRegion img_one.H img_one.W = ∅ := by decide
    unfold anomalies
    rw [hemp, Finset.filter_empty, Finset.card_empty]
  refine ⟨by omega, ?_, ?_⟩
  · rw [hrun]
    exact fun h => Except.noConfusion h
  · rw [hrun]
    exact fun h => Except.noConfusion h

/-- Claim C2: the analysis centers on `(H // 2, W // 2)` with exclusion
radius `min(H // 2, W // 2) // 4`, a cell is in the outer region exactly
when its squared distance from the center strictly exceeds the squared
radius; for a 400-by-400 image the radius is 50 and every cell at distance
at most 50 from the center is excluded. -/
theorem outer_region_geometry :
    (∀ (H W : ℕ) (p : Fin H × Fin W),
        p ∈ outerRegion H W ↔
          ((min (H / 2) (W / 2) / 4 : ℕ) : ℤ) ^ 2 <
            ((p.1 : ℤ) - ((H / 2 : ℕ) : ℤ)) ^ 2 +
              ((p.2 : ℤ) - ((W / 2 : ℕ) : ℤ)) ^ 2) ∧
    radius 400 400 = 50 ∧
    (∀ p : Fin 400 × Fin 400,
        ((p.1 : ℤ) - 200) ^ 2 + ((p.2 : ℤ) - 200) ^ 2 ≤ 50 ^ 2 →
          p ∉ outerRegion 400 400) := by
  refine ⟨mem_outerRegion_iff, by decide, fun p hle hmem => ?_⟩
  rw [mem_outerRegion_iff] at hmem
  norm_num at hmem
  omega

/-- Witness for C2 at the center cell of the 400-by-400 grid. -/
theorem outer_region_geometry_witness :
    (⟨⟨200, by omega⟩, ⟨200, by omega⟩⟩ : Fin 400 × Fin 400) ∉ outerRegion 400 400 :=
  outer_region_geometry.2.2 ⟨⟨200, by omega⟩, ⟨200, by omega⟩⟩ (by decide)

/-- Claim C3: on a path that does not decode, the fingerprint entry point
fails with the load error while the pattern analysis returns the sentinel
string. -/
theorem load_failure_asymmetry (fs : FileSystem) (path : String)
    (h : fs path = none) :
    compute_spectral_fingerprint_web fs path =
      Except.error (image_load_error path) ∧
    analyze_spectrum_patterns fs path = Except.ok could_not_analyze := by
  constructor
  · simp only [compute_spectral_fingerprint_web, imread, h]
  · simp only [analyze_spectrum_patterns, imread, h]

/-- Witness for C3 on the empty file system. -/
theorem load_failure_asymmetry_witness :
    compute_spectral_fingerprint_web fs_empty "missing.png" =
      Except.error (image_load_error "missing.png") ∧
    analyze_spectrum_patterns fs_empty "missing.png" = Except.ok could_not_analyze :=
  load_failure_asymmetry fs_empty "missing.png" rfl

/-- Claim C4: the pattern analysis leaves the image unchanged and a second
call on the resulting state returns the identical output. -/
theorem analyze_patterns_pure (img : GrayImage) :
    (analyze_call img).2 = img ∧
    (analyze_call ((analyze_call img).2)).1 = (analyze_call img).1 :=
  ⟨rfl, rfl⟩

/-- Claim C5: the magnitude spectrum is indexed by exactly the `H * W`
cells of the source image (same dimensions by construction) and every
entry is a non-negative real. -/
theorem magnitude_spectrum_shape (img : GrayImage) :
    (∀ (u : Fin img.H) (v : Fin img.W), 0 ≤ magnitude_spectrum img u v) ∧
    Fintype.card (Fin img.H × Fin img.W) = img.H * img.W :=
  ⟨fun u v => Complex.abs.nonneg _, by simp⟩

/-- Claim C10: the legacy GUI fingerprint entry point agrees with the web
entry point on every input, errors included. -/
theorem fingerprint_legacy_equiv (fs : FileSystem) (path : String) :
    compute_spectral_fingerprint fs path = compute_spectral_fingerprint_web fs path :=
  rfl

/-- Claim C8: on any 1-by-1 image the analysis raises the empty-selection
reduction error, returning neither verdict nor sentinel; and 1-by-1 is the
only shape with an empty outer region. -/
theorem analyze_empty_outer_region :
    (∀ img : GrayImage, img.H = 1 → img.W = 1 →
        analyze_core img = Except.error zero_size_reduction_msg) ∧
    (∀ H W : ℕ, 0 < H → 0 < W → (outerRegion H W = ∅ ↔ H = 1 ∧ W = 1)) :=
  ⟨analyze_core_one, outerRegion_empty_iff⟩

/-- Witness for C8 at the concrete 1-by-1 zero image. -/
theorem analyze_empty_outer_region_witness :
    analyze_core img_one = Except.error zero_size_reduction_msg :=
  analyze_empty_outer_region.1 img_one rfl rfl

/-- Claim C6: a constant image's magnitude spectrum is a single center
peak, vanishes away from the center and on the whole outer region, its
anomaly count is zero, and the analysis returns the natural verdict. -/
theorem uniform_image_natural_verdict (H W : ℕ) (hH : 0 < H) (hW : 0 < W) (c : ℝ)
    (hne : (outerRegion H W).Nonempty) :
    (∀ (u : Fin H) (v : Fin W), ¬((u : ℕ) = H / 2 ∧ (v : ℕ) = W / 2) →
        magnitude_spectrum (GrayImage.mk H W hH hW fun _ _ => c) u v = 0) ∧
    magnitude_spectrum (GrayImage.mk H W hH hW fun _ _ => c)
        ⟨H / 2, Nat.div_lt_self hH one_lt_two⟩
        ⟨W / 2, Nat.div_lt_self hW one_lt_two⟩ = (H : ℝ) * W * |c| ∧
    (∀ p ∈ outerRegion H W,
        magnitude_spectrum (GrayImage.mk H W hH hW fun _ _ => c) p.1 p.2 = 0) ∧
    anomalies (GrayImage.mk H W hH hW fun _ _ => c) = 0 ∧
    analyze_core (GrayImage.mk H W hH hW fun _ _ => c) = Except.ok natural_message := by
  refine ⟨fun u v h => ?_, ?_, fun p hp => ?_, anomalies_uniform H W hH hW c, ?_⟩
  · rw [magnitude_spectrum_const H W hH hW c u v, if_neg h]
  · rw [magnitude_spectrum_const H W hH hW c, if_pos ⟨rfl, rfl⟩]
  · rw [magnitude_spectrum_const H W hH hW c p.1 p.2, if_neg]
    intro hc
    exact center_not_mem_outerRegion H W p hc.1 hc.2 hp
  · rw [analyze_core_of_nonempty _ hne, anomalies_uniform H W hH hW c,
      if_neg (by omega : ¬(100 < 0))]
    rfl

/-- Witness for C6 at the constant 1-by-2 image of value 5. -/
theorem uniform_image_natural_verdict_witness :
    (outerRegion 1 2).Nonempty ∧
    analyze_core (GrayImage.mk 1 2 Nat.one_pos (by omega) fun _ _ => (5 : ℝ)) =
      Except.ok natural_message :=
  ⟨by decide, (uniform_image_natural_verdict 1 2 Nat.one_pos (by omega) 5 (by decide)).2.2.2.2⟩

/-- Claim C9: whenever the top label matches an AI keyword the detector
resolves to artificial, regardless of any real-keyword match. -/
theorem detect_ai_precedence (model_name : String) (results : List Prediction)
    (h : results ≠ [])
    (hai : matchesAny (lowerChars (results.head h).label) ai_keywords = true) :
    (detect model_name results h).label = "artificial" := by
  simp [detect, hai]

/-- Witness for C9 on a label matching both keyword sets. -/
theorem detect_ai_precedence_witness :
    (detect "m" [⟨"AI photo", 9/10⟩] (List.cons_ne_nil _ _)).label = "artificial" :=
  detect_ai_precedence "m" [⟨"AI photo", 9/10⟩] (List.cons_ne_nil _ _) (by decide)

/-- Counterexample to C7 as stated: a top label matching neither keyword
set and containing no negation marker still resolves to artificial when a
later prediction's label matches an AI keyword. -/
theorem detect_default_counterexample :
    matchesAny (lowerChars "Unknown") ai_keywords = false ∧
    matchesAny (lowerChars "Unknown") real_keywords = false ∧
    containsSub "not".toList (lowerChars "Unknown") = false ∧
    (detect "m" [⟨"Unknown", 9/10⟩, ⟨"AI", 1/10⟩] (List.cons_ne_nil _ _)).label =
      "artificial" ∧
    (detect "m" [⟨"Unknown", 9/10⟩, ⟨"AI", 1/10⟩] (List.cons_ne_nil _ _)).label ≠
      "real" := by
  decide

/-- Claim C7 (amended): when the top label matches neither keyword set and
the fallback scan finds no AI-matching prediction (or there is only one
prediction), the detector defaults to real, or to artificial when the top
label contains the negation marker. -/
theorem detect_default_amended (model_name : String) (results : List Prediction)
    (h : results ≠ [])
    (hai : matchesAny (lowerChars (results.head h).label) ai_keywords = false)
    (hreal : matchesAny (lowerChars (results.head h).label) real_keywords = false)
    (hfb : results.length ≤ 1 ∨
      results.find? (fun r => matchesAny (lowerChars r.label) ai_keywords) = none) :
    (detect model_name results h).label =
      if containsSub "not".toList (lowerChars (results.head h).label) then "artificial"
      else "real" := by
  rcases hfb with hlen | hfind
  · simp [detect, hai, hreal, Nat.not_lt.mpr hlen]
  · simp [detect, hai, hreal, hfind]

/-- Witness for C7 on a single unmatched prediction. -/
theorem detect_default_amended_witness :
    (detect "m" [⟨"Unknown label", 1⟩] (List.cons_ne_nil _ _)).label = "real" := by
  have h := detect_default_amended "m" [⟨"Unknown label", 1⟩] (List.cons_ne_nil _ _)
    (by decide) (by decide) (Or.inl (by decide))
  rw [h]
  decide

end ImageModel
